import Mathlib

/-!
Verification of the OCR pipeline notebook (`OCR.ipynb`) against its design
specification.  The notebook's pure logic is embedded shallowly:

* `clean_text` — the text sanitizer (`re.sub` filter, whitespace collapse,
  `str.strip`), modelled on `List Char`;
* `correct_skew_angle` — the angle-normalization branch of
  `preprocess_image`;
* `extractBest` / `extractTextE` — the orientation-voting loop of
  `extract_text_from_images`, in a total form (the recognizer returns a
  list of text blocks per rotation angle) and a fallible form (the
  recognizer may raise, modelled with `Except`);
* `image_files` — directory listing, extension filter, lexicographic sort
  and range slice;
* `extract_text_from_images` / `extract_text_from_imagesE` — the batch
  loop, total and fallible;
* `saveJson` — the shape of the persisted JSON document, over a small JSON
  value type.

External effects (file system, EasyOCR, OpenCV image buffers) are passed in
as parameters: the directory listing is a list of names, the recognizer is
a function from rotation angle to recognized text blocks, preprocessing a
path is a function from the path to a per-angle recognizer.
-/

/-! ## Text sanitizer (`clean_text`)

Source:
```python
def clean_text(text):
    text = re.sub(r'[^a-zA-Z0-9.,:/\n\s]', '', text)
    text = re.sub(r'\s+', ' ', text)
    return text.strip()
```
`\s` in a Python 3 `str` pattern matches the characters for which CPython's
`Py_UNICODE_ISSPACE` holds; `str.strip()` strips the same set. -/

/-- The character class matched by Python's `\s` (and stripped by
`str.strip()`): 0x09–0x0D, 0x1C–0x1F, space, 0x85, 0xA0, 0x1680,
0x2000–0x200A, 0x2028, 0x2029, 0x202F, 0x205F, 0x3000. -/
def pyIsSpace (c : Char) : Bool :=
  (9 ≤ c.toNat && c.toNat ≤ 13) || (28 ≤ c.toNat && c.toNat ≤ 31) ||
  c.toNat == 32 || c.toNat == 133 || c.toNat == 160 || c.toNat == 5760 ||
  (8192 ≤ c.toNat && c.toNat ≤ 8202) || c.toNat == 8232 || c.toNat == 8233 ||
  c.toNat == 8239 || c.toNat == 8287 || c.toNat == 12288

/-- The character class `[a-zA-Z0-9.,:/\n\s]` kept by the first `re.sub` of
`clean_text` (everything else is deleted). -/
def keptChar (c : Char) : Bool :=
  (97 ≤ c.toNat && c.toNat ≤ 122) || (65 ≤ c.toNat && c.toNat ≤ 90) ||
  (48 ≤ c.toNat && c.toNat ≤ 57) || c.toNat == 46 || c.toNat == 44 ||
  c.toNat == 58 || c.toNat == 47 || c.toNat == 10 || pyIsSpace c

/-- `re.sub(r'\s+', ' ', text)`: every maximal run of whitespace becomes a
single ASCII space. -/
def collapseWS : List Char → List Char
  | [] => []
  | [c] => [if pyIsSpace c then ' ' else c]
  | c :: d :: cs =>
    if pyIsSpace c && pyIsSpace d then collapseWS (d :: cs)
    else (if pyIsSpace c then ' ' else c) :: collapseWS (d :: cs)

/-- Leading-whitespace removal (the left half of `str.strip()`). -/
def lstrip (l : List Char) : List Char := l.dropWhile pyIsSpace

/-- Trailing-whitespace removal (the right half of `str.strip()`). -/
def rstrip (l : List Char) : List Char := (l.reverse.dropWhile pyIsSpace).reverse

/-- The three steps of `clean_text` on the character list. -/
def cleanList (l : List Char) : List Char :=
  rstrip (lstrip (collapseWS (l.filter keptChar)))

/-- `clean_text` from the notebook: delete disallowed characters, collapse
whitespace runs to single spaces, strip both ends. -/
def clean_text (s : String) : String :=
  String.mk (cleanList s.data)

/-! ## Skew-angle correction (from `preprocess_image`)

Source:
```python
angle = cv2.minAreaRect(coords)[-1]
if angle < -45:
    angle = -(90 + angle)
else:
    angle = -angle
```
The raw bounding-rectangle angle is a real number; it is modelled with `ℚ`.
-/

/-- The angle-normalization branch of `preprocess_image`. -/
def correct_skew_angle (angle : ℚ) : ℚ :=
  if angle < -45 then -(90 + angle) else -angle

/-! ## Orientation voting (from `extract_text_from_images`)

Source:
```python
best_result = ""
for angle in [0, 90, 180, 270]:
    rotated_img = rotate_bound(processed_img, angle)
    results = reader.readtext(rotated_img, detail=0, paragraph=True)
    extracted_text = ' '.join(results)
    if len(extracted_text) > len(best_result):
        best_result = extracted_text
```
The recognizer applied to the rotated image is modelled as a function from
the rotation angle to the recognized text blocks. -/

/-- The fixed rotation angles, in scan order. -/
def ANGLES : List Nat := [0, 90, 180, 270]

/-- `' '.join(results)`. -/
def joinBlocks (blocks : List String) : String := String.intercalate " " blocks

/-- One iteration of the voting loop: the candidate replaces the best seen
so far only when its length is strictly greater. -/
def voteStep (best t : String) : String := if t.length > best.length then t else best

/-- The voting loop with a recognizer that always returns (a possibly empty
list of) text blocks. -/
def extractBest (recog : Nat → List String) : String :=
  ANGLES.foldl (fun best a => voteStep best (joinBlocks (recog a))) ""

/-- The voting loop with a recognizer that may raise, as the Python code
runs it: `reader.readtext` is called inside the loop with no `try`, so a
raised error aborts the loop (and the whole batch). -/
def extractTextE (recog : Nat → Except Unit (List String)) : Except Unit String :=
  ANGLES.foldlM
    (fun best a => do
      let results ← recog a
      pure (voteStep best (joinBlocks results)))
    ""

/-! ## File listing, sort and slice (from `extract_text_from_images`)

Source:
```python
image_files = [f for f in os.listdir(input_folder) if f.endswith(('.png', '.jpg', '.jpeg'))]
image_files.sort()
image_files = image_files[200:400]
```
Python sorts strings lexicographically by code point; `charListLe` is that
order on the underlying character lists. -/

/-- Lexicographic (code-point) comparison of character lists, Python's
string `<=`. -/
def charListLe : List Char → List Char → Bool
  | [], _ => true
  | _ :: _, [] => false
  | a :: as, b :: bs =>
    if a.toNat < b.toNat then true
    else if b.toNat < a.toNat then false
    else charListLe as bs

/-- Python's lexicographic string order, as a proposition. -/
def lexLeP (a b : String) : Prop := charListLe a.data b.data = true

instance : DecidableRel lexLeP := fun a b =>
  inferInstanceAs (Decidable (charListLe a.data b.data = true))

/-- `f.endswith(suf)`, case-sensitive. -/
def strEndsWith (f suf : String) : Bool :=
  f.data.reverse.take suf.data.length == suf.data.reverse

/-- `f.endswith(('.png', '.jpg', '.jpeg'))`. -/
def hasImageExt (f : String) : Bool :=
  strEndsWith f ".png" || strEndsWith f ".jpg" || strEndsWith f ".jpeg"

/-- The listing step of `extract_text_from_images`: keep the entries with an
image extension, sort lexicographically, and take the half-open index slice
`[s, e)` of the sorted list (`image_files[s:e]`).  The source instantiates
the slice at `200:400` (`RANGE_START`/`RANGE_END` below). -/
def image_files (entries : List String) (s e : Nat) : List String :=
  ((List.insertionSort lexLeP (entries.filter hasImageExt)).drop s).take (e - s)

/-- Slice bound `200` hardcoded in the source. -/
def RANGE_START : Nat := 200

/-- Slice bound `400` hardcoded in the source. -/
def RANGE_END : Nat := 400

/-- `input_folder` constant from the notebook. -/
def input_folder : String := "aadhar.v1i.yolov5pytorch/train/images"

/-- `output_file` constant from the notebook. -/
def output_file : String := "aadhar_extracted_texts.json"

/-! ## Batch pipeline and persisted shape -/

/-- `os.path.join(input_folder, filename)` for a flat directory. -/
def pathJoin (d f : String) : String := d ++ "/" ++ f

/-- One element of `data["input"]`: the source file name (not the full
path) and the sanitized text. -/
structure ExtractionResult where
  image : String
  text_extracted : String
deriving DecidableEq

/-- The batch loop of `extract_text_from_images`, with the per-path
recognizer passed in (`recog p a` = the text blocks `reader.readtext`
returns for the preprocessed image of path `p` rotated by angle `a`). -/
def extract_text_from_images (dir : String) (entries : List String)
    (recog : String → Nat → List String) (s e : Nat) : List ExtractionResult :=
  (image_files entries s e).map fun f =>
    { image := f
      text_extracted := clean_text (extractBest (recog (pathJoin dir f))) }

/-- The batch loop as the Python code runs it when reading or recognizing
can fail: `preprocess_image` (`cv2.imread` + `cv2.cvtColor`) may raise on an
unreadable file, and `reader.readtext` may raise per angle; neither call is
wrapped in a `try`, so the monad short-circuits exactly like an uncaught
Python exception.  `proc p` = either the failure of preprocessing path `p`
or its per-angle (fallible) recognizer. -/
def batchLoopE (dir : String)
    (proc : String → Except Unit (Nat → Except Unit (List String))) :
    List String → List ExtractionResult → Except Unit (List ExtractionResult)
  | [], acc => Except.ok acc
  | f :: rest, acc =>
    match proc (pathJoin dir f) with
    | Except.error e => Except.error e
    | Except.ok recog =>
      match extractTextE recog with
      | Except.error e => Except.error e
      | Except.ok best =>
        batchLoopE dir proc rest
          (acc ++ [{ image := f, text_extracted := clean_text best }])

/-- The whole listing-and-extraction run in the fallible model: the loop
over the selected files, started with the empty accumulator. -/
def extract_text_from_imagesE (dir : String) (entries : List String)
    (proc : String → Except Unit (Nat → Except Unit (List String)))
    (s e : Nat) : Except Unit (List ExtractionResult) :=
  batchLoopE dir proc (image_files entries s e) []

/-- JSON values, as far as the persisted document needs them. -/
inductive Json where
  | str : String → Json
  | arr : List Json → Json
  | obj : List (String × Json) → Json

/-- One entry of the persisted array. -/
def encodeResult (r : ExtractionResult) : Json :=
  Json.obj [("image", Json.str r.image), ("text_extracted", Json.str r.text_extracted)]

/-- The document `json.dump` writes: `{"input": [...]}` in corpus order. -/
def saveJson (corpus : List ExtractionResult) : Json :=
  Json.obj [("input", Json.arr (corpus.map encodeResult))]

/-- Modelled from the spec: the notebook only writes the JSON document
(`json.dump`); the ResultStore `load` operation (§4.5, "the structural
inverse") is not in the source.  Decoder for one entry, following the
spec's shape `{"image": <string>, "text_extracted": <string>}`. -/
def decodeEntry : Json → Option ExtractionResult
  | Json.obj [("image", Json.str i), ("text_extracted", Json.str t)] =>
    some { image := i, text_extracted := t }
  | _ => none

/-- Modelled from the spec: decode the persisted array in order. -/
def decodeEntries : List Json → Option (List ExtractionResult)
  | [] => some []
  | j :: js =>
    match decodeEntry j, decodeEntries js with
    | some r, some rs => some (r :: rs)
    | _, _ => none

/-- Modelled from the spec: `load(path)` reconstructs the Corpus from a
document of the shape `{"input": [...]}` (§4.5). -/
def load : Json → Option (List ExtractionResult)
  | Json.obj [("input", Json.arr items)] => decodeEntries items
  | _ => none

/-- The character set the specification allows in sanitized output: ASCII
letters, ASCII digits, the punctuation `.`/`,`/`:`/`/`, the newline
character and the ASCII space (stated from the spec, for comparison with
the code's `clean_text`). -/
def specAllowedChar (c : Char) : Bool :=
  (97 ≤ c.toNat && c.toNat ≤ 122) || (65 ≤ c.toNat && c.toNat ≤ 90) ||
  (48 ≤ c.toNat && c.toNat ≤ 57) || c.toNat == 46 || c.toNat == 44 ||
  c.toNat == 58 || c.toNat == 47 || c.toNat == 10 || c.toNat == 32

/-! ## Lemmas about the sanitizer -/

/-- Adjacent characters are not both whitespace. -/
def SpaceRel (a b : Char) : Prop := ¬(pyIsSpace a = true ∧ pyIsSpace b = true)

theorem spaceRel_of_left {a b : Char} (h : pyIsSpace a = false) : SpaceRel a b := by
  intro hc
  rw [h] at hc
  exact Bool.false_ne_true hc.1

theorem spaceRel_of_right {a b : Char} (h : pyIsSpace b = false) : SpaceRel a b := by
  intro hc
  rw [h] at hc
  exact Bool.false_ne_true hc.2

theorem mem_collapseWS : ∀ (l : List Char) (c : Char),
    c ∈ collapseWS l → c = ' ' ∨ (c ∈ l ∧ pyIsSpace c = false)
  | [], c, h => by simp [collapseWS] at h
  | [d], c, h => by
    by_cases hd : pyIsSpace d
    · simp [collapseWS, hd] at h
      exact Or.inl h
    · simp [collapseWS, hd] at h
      subst h
      exact Or.inr ⟨List.mem_singleton.mpr rfl, Bool.not_eq_true _ ▸ hd⟩
  | a :: d :: cs, c, h => by
    by_cases had : (pyIsSpace a && pyIsSpace d) = true
    · rw [show collapseWS (a :: d :: cs) = collapseWS (d :: cs) by
        simp [collapseWS, had]] at h
      rcases mem_collapseWS (d :: cs) c h with h1 | ⟨h1, h2⟩
      · exact Or.inl h1
      · exact Or.inr ⟨List.mem_cons_of_mem a h1, h2⟩
    · rw [show collapseWS (a :: d :: cs) =
          (if pyIsSpace a then ' ' else a) :: collapseWS (d :: cs) by
        simp [collapseWS, had]] at h
      rcases List.mem_cons.mp h with h1 | h1
      · by_cases ha : pyIsSpace a
        · rw [if_pos ha] at h1
          exact Or.inl h1
        · rw [if_neg ha] at h1
          subst h1
          exact Or.inr ⟨List.mem_cons_self _ _, Bool.not_eq_true _ ▸ ha⟩
      · rcases mem_collapseWS (d :: cs) c h1 with h2 | ⟨h2, h3⟩
        · exact Or.inl h2
        · exact Or.inr ⟨List.mem_cons_of_mem a h2, h3⟩

theorem collapseWS_cons : ∀ (a : Char) (cs : List Char),
    ∃ t, collapseWS (a :: cs) = (if pyIsSpace a then ' ' else a) :: t
  | a, [] => ⟨[], rfl⟩
  | a, d :: cs => by
    obtain ⟨t, ht⟩ := collapseWS_cons d cs
    by_cases had : (pyIsSpace a && pyIsSpace d) = true
    · refine ⟨t, ?_⟩
      have ha : pyIsSpace a = true := (Bool.and_eq_true _ _).mp had |>.1
      have hd : pyIsSpace d = true := (Bool.and_eq_true _ _).mp had |>.2
      rw [show collapseWS (a :: d :: cs) = collapseWS (d :: cs) by
        simp [collapseWS, had]]
      rw [ht]
      simp [ha, hd]
    · exact ⟨collapseWS (d :: cs), by simp [collapseWS, had]⟩

theorem chain'_collapseWS : ∀ l : List Char, List.Chain' SpaceRel (collapseWS l)
  | [] => by simp [collapseWS]
  | [c] => by simp [collapseWS]
  | a :: d :: cs => by
    by_cases had : (pyIsSpace a && pyIsSpace d) = true
    · rw [show collapseWS (a :: d :: cs) = collapseWS (d :: cs) by
        simp [collapseWS, had]]
      exact chain'_collapseWS (d :: cs)
    · rw [show collapseWS (a :: d :: cs) =
          (if pyIsSpace a then ' ' else a) :: collapseWS (d :: cs) by
        simp [collapseWS, had]]
      obtain ⟨t, ht⟩ := collapseWS_cons d cs
      rw [ht]
      refine List.chain'_cons.mpr ⟨?_, ht ▸ chain'_collapseWS (d :: cs)⟩
      by_cases ha : pyIsSpace a
      · have hd : pyIsSpace d = false := by
          by_cases h : pyIsSpace d
          · exact absurd ((Bool.and_eq_true _ _).mpr ⟨ha, h⟩) had
          · exact Bool.not_eq_true _ ▸ h
        rw [if_pos ha, if_neg (by simp [hd])]
        exact spaceRel_of_right hd
      · rw [if_neg ha]
        exact spaceRel_of_left (Bool.not_eq_true _ ▸ ha)

theorem collapseWS_eq_self : ∀ l : List Char,
    (∀ c ∈ l, pyIsSpace c = true → c = ' ') → List.Chain' SpaceRel l →
    collapseWS l = l
  | [], _, _ => rfl
  | [c], hmem, _ => by
    by_cases hc : pyIsSpace c
    · have hce : c = ' ' := hmem c (List.mem_singleton.mpr rfl) hc
      simp [collapseWS, hc, hce]
    · simp [collapseWS, hc]
  | a :: d :: cs, hmem, hch => by
    have hrel : SpaceRel a d := (List.chain'_cons.mp hch).1
    have had : ¬((pyIsSpace a && pyIsSpace d) = true) := by
      intro h
      exact hrel ⟨(Bool.and_eq_true _ _).mp h |>.1, (Bool.and_eq_true _ _).mp h |>.2⟩
    rw [show collapseWS (a :: d :: cs) =
        (if pyIsSpace a then ' ' else a) :: collapseWS (d :: cs) by
      simp [collapseWS, had]]
    have htail := collapseWS_eq_self (d :: cs)
      (fun c hc => hmem c (List.mem_cons_of_mem a hc)) (List.chain'_cons.mp hch).2
    rw [htail]
    by_cases ha : pyIsSpace a
    · rw [if_pos ha, (hmem a (List.mem_cons_self _ _) ha).symm]
    · rw [if_neg ha]

theorem head?_dropWhile_false {α : Type} (p : α → Bool) :
    ∀ (l : List α) {c : α}, (l.dropWhile p).head? = some c → p c = false
  | [], c, h => by simp [List.dropWhile] at h
  | a :: t, c, h => by
    rw [List.dropWhile_cons] at h
    by_cases ha : p a
    · rw [if_pos ha] at h
      exact head?_dropWhile_false p t h
    · rw [if_neg ha] at h
      simp at h
      subst h
      exact Bool.not_eq_true _ ▸ ha

theorem dropWhile_eq_self_of_head {α : Type} (p : α → Bool) (l : List α)
    (h : ∀ c ∈ l.head?, p c = false) : l.dropWhile p = l := by
  cases l with
  | nil => rfl
  | cons a t =>
    have ha : p a = false := h a rfl
    rw [List.dropWhile_cons, if_neg (by simp [ha])]

theorem chain'_dropWhile {α : Type} {R : α → α → Prop} (p : α → Bool)
    {l : List α} (h : List.Chain' R l) : List.Chain' R (l.dropWhile p) := by
  have hsplit : l.takeWhile p ++ l.dropWhile p = l := List.takeWhile_append_dropWhile p l
  rw [← hsplit] at h
  exact (List.chain'_append.mp h).2.1

theorem spaceRel_flip {a b : Char} (h : SpaceRel a b) : SpaceRel b a :=
  fun hc => h ⟨hc.2, hc.1⟩

theorem chain'_lstrip {l : List Char} (h : List.Chain' SpaceRel l) :
    List.Chain' SpaceRel (lstrip l) := chain'_dropWhile pyIsSpace h

theorem chain'_rstrip {l : List Char} (h : List.Chain' SpaceRel l) :
    List.Chain' SpaceRel (rstrip l) := by
  rw [rstrip, List.chain'_reverse]
  apply chain'_dropWhile
  rw [List.chain'_reverse]
  exact h

theorem lstrip_subset (l : List Char) : lstrip l ⊆ l :=
  (List.dropWhile_sublist _).subset

theorem rstrip_subset (l : List Char) : rstrip l ⊆ l := by
  intro c hc
  rw [rstrip, List.mem_reverse] at hc
  exact List.mem_reverse.mp ((List.dropWhile_sublist _).subset hc)

theorem head?_lstrip_false {l : List Char} {c : Char}
    (h : (lstrip l).head? = some c) : pyIsSpace c = false :=
  head?_dropWhile_false pyIsSpace l h

theorem getLast?_rstrip_false {l : List Char} {c : Char}
    (h : (rstrip l).getLast? = some c) : pyIsSpace c = false := by
  rw [rstrip, List.getLast?_reverse] at h
  exact head?_dropWhile_false pyIsSpace l.reverse h

theorem rstrip_append (l : List Char) :
    l = rstrip l ++ (l.reverse.takeWhile pyIsSpace).reverse := by
  rw [rstrip, ← List.reverse_append, List.takeWhile_append_dropWhile,
    List.reverse_reverse]

theorem head?_rstrip {l : List Char} {c : Char}
    (h : (rstrip l).head? = some c) : l.head? = some c := by
  rcases hr : rstrip l with _ | ⟨a, t⟩
  · rw [hr] at h
    exact absurd h (by simp)
  · rw [hr] at h
    simp at h
    subst h
    rw [rstrip_append l, hr]
    rfl

theorem lstrip_eq_self {l : List Char}
    (h : ∀ c ∈ l.head?, pyIsSpace c = false) : lstrip l = l :=
  dropWhile_eq_self_of_head pyIsSpace l h

theorem rstrip_eq_self {l : List Char}
    (h : ∀ c ∈ l.getLast?, pyIsSpace c = false) : rstrip l = l := by
  rw [rstrip, dropWhile_eq_self_of_head pyIsSpace l.reverse
    (by rw [List.head?_reverse]; exact h), List.reverse_reverse]

theorem mem_cleanList {l : List Char} {c : Char} (h : c ∈ cleanList l) :
    c = ' ' ∨ (keptChar c = true ∧ pyIsSpace c = false) := by
  have h1 : c ∈ collapseWS (l.filter keptChar) :=
    lstrip_subset _ (rstrip_subset _ h)
  rcases mem_collapseWS _ c h1 with h2 | ⟨h2, h3⟩
  · exact Or.inl h2
  · exact Or.inr ⟨(List.mem_filter.mp h2).2, h3⟩

theorem kept_of_mem_cleanList {l : List Char} {c : Char} (h : c ∈ cleanList l) :
    keptChar c = true := by
  rcases mem_cleanList h with h1 | ⟨h1, _⟩
  · subst h1
    decide
  · exact h1

theorem space_eq_of_mem_cleanList {l : List Char} {c : Char} (h : c ∈ cleanList l)
    (hs : pyIsSpace c = true) : c = ' ' := by
  rcases mem_cleanList h with h1 | ⟨_, h2⟩
  · exact h1
  · rw [h2] at hs
    exact absurd hs (by simp)

theorem chain'_cleanList (l : List Char) : List.Chain' SpaceRel (cleanList l) :=
  chain'_rstrip (chain'_lstrip (chain'_collapseWS _))

theorem head?_cleanList_false {l : List Char} {c : Char}
    (h : (cleanList l).head? = some c) : pyIsSpace c = false :=
  head?_lstrip_false (head?_rstrip h)

theorem getLast?_cleanList_false {l : List Char} {c : Char}
    (h : (cleanList l).getLast? = some c) : pyIsSpace c = false :=
  getLast?_rstrip_false h

theorem cleanList_fixpoint (l : List Char) : cleanList (cleanList l) = cleanList l := by
  have hfil : (cleanList l).filter keptChar = cleanList l :=
    List.filter_eq_self.mpr fun c hc => kept_of_mem_cleanList hc
  have hcol : collapseWS (cleanList l) = cleanList l :=
    collapseWS_eq_self _ (fun c hc hs => space_eq_of_mem_cleanList hc hs)
      (chain'_cleanList l)
  have hls : lstrip (cleanList l) = cleanList l :=
    lstrip_eq_self fun c hc => head?_cleanList_false hc
  have hrs : rstrip (cleanList l) = cleanList l :=
    rstrip_eq_self fun c hc => getLast?_cleanList_false hc
  rw [show cleanList (cleanList l) =
    rstrip (lstrip (collapseWS ((cleanList l).filter keptChar))) from rfl,
    hfil, hcol, hls, hrs]

theorem kept_not_space_spec {c : Char} (hk : keptChar c = true)
    (hw : pyIsSpace c = false) : specAllowedChar c = true := by
  unfold keptChar at hk
  unfold pyIsSpace at hk hw
  unfold specAllowedChar
  simp only [Bool.or_eq_true, Bool.and_eq_true, decide_eq_true_eq, beq_iff_eq,
    Bool.or_eq_false_iff, Bool.and_eq_false_iff, decide_eq_false_iff_not, not_le,
    beq_eq_false_iff_ne, ne_eq] at hk hw ⊢
  omega

/-! ## Lemmas about orientation voting -/

theorem voteStep_eq_or (b t : String) : voteStep b t = b ∨ voteStep b t = t := by
  unfold voteStep
  split
  · exact Or.inr rfl
  · exact Or.inl rfl

theorem voteStep_length (b t : String) :
    (voteStep b t).length = max t.length b.length := by
  unfold voteStep
  split <;> omega

theorem vote_foldl_mem : ∀ (cs : List String) (b : String),
    List.foldl voteStep b cs = b ∨ List.foldl voteStep b cs ∈ cs
  | [], _ => Or.inl rfl
  | c :: cs, b => by
    rw [List.foldl_cons]
    rcases vote_foldl_mem cs (voteStep b c) with h | h
    · rw [h]
      rcases voteStep_eq_or b c with h1 | h1
      · exact Or.inl h1
      · rw [h1]
        exact Or.inr (List.mem_cons_self _ _)
    · exact Or.inr (List.mem_cons_of_mem _ h)

theorem vote_foldl_length : ∀ (cs : List String) (b : String),
    (List.foldl voteStep b cs).length = max ((cs.map String.length).foldr max 0) b.length
  | [], b => by simp
  | c :: cs, b => by
    rw [List.foldl_cons, vote_foldl_length cs (voteStep b c), voteStep_length]
    simp only [List.map_cons, List.foldr_cons]
    omega

theorem extractBest_eq_foldl (recog : Nat → List String) :
    extractBest recog = List.foldl voteStep "" (ANGLES.map fun a => joinBlocks (recog a)) := by
  simp only [extractBest]
  rw [List.foldl_map]

/-! ## Lemmas about the lexicographic order and the file slice -/

theorem charListLe_total : ∀ as bs : List Char,
    charListLe as bs = true ∨ charListLe bs as = true
  | [], _ => Or.inl rfl
  | _ :: _, [] => Or.inr rfl
  | a :: as, b :: bs => by
    rcases Nat.lt_trichotomy a.toNat b.toNat with h | h | h
    · left
      unfold charListLe
      rw [if_pos h]
    · rcases charListLe_total as bs with ih | ih
      · left
        unfold charListLe
        rw [if_neg (by omega), if_neg (by omega)]
        exact ih
      · right
        unfold charListLe
        rw [if_neg (by omega), if_neg (by omega)]
        exact ih
    · right
      unfold charListLe
      rw [if_pos h]

theorem charListLe_trans : ∀ as bs cs : List Char,
    charListLe as bs = true → charListLe bs cs = true → charListLe as cs = true
  | [], _, _, _, _ => rfl
  | _ :: _, [], _, hab, _ => absurd hab (by simp [charListLe])
  | _ :: _, _ :: _, [], _, hbc => absurd hbc (by simp [charListLe])
  | a :: as, b :: bs, c :: cs, hab, hbc => by
    unfold charListLe at hab hbc ⊢
    rcases Nat.lt_trichotomy a.toNat b.toNat with h1 | h1 | h1
    · rcases Nat.lt_trichotomy b.toNat c.toNat with h2 | h2 | h2
      · rw [if_pos (by omega)]
      · rw [if_pos (by omega)]
      · rw [if_neg (by omega), if_pos h2] at hbc
        exact absurd hbc (by simp)
    · rw [if_neg (by omega), if_neg (by omega)] at hab
      rcases Nat.lt_trichotomy b.toNat c.toNat with h2 | h2 | h2
      · rw [if_pos (by omega)]
      · rw [if_neg (by omega), if_neg (by omega)] at hbc ⊢
        exact charListLe_trans as bs cs hab hbc
      · rw [if_neg (by omega), if_pos h2] at hbc
        exact absurd hbc (by simp)
    · rw [if_neg (by omega), if_pos h1] at hab
      exact absurd hab (by simp)

theorem mem_image_files {entries : List String} {s e : Nat} {f : String}
    (h : f ∈ image_files entries s e) : hasImageExt f = true ∧ f ∈ entries := by
  unfold image_files at h
  have h1 : f ∈ List.insertionSort lexLeP (entries.filter hasImageExt) :=
    ((List.take_sublist _ _).trans (List.drop_sublist _ _)).subset h
  have h2 : f ∈ entries.filter hasImageExt :=
    (List.perm_insertionSort lexLeP _).subset h1
  exact ⟨(List.mem_filter.mp h2).2, (List.mem_filter.mp h2).1⟩

theorem pairwise_image_files (entries : List String) (s e : Nat) :
    List.Pairwise lexLeP (image_files entries s e) := by
  haveI : IsTotal String lexLeP := ⟨fun a b => charListLe_total a.data b.data⟩
  haveI : IsTrans String lexLeP := ⟨fun a b c => charListLe_trans a.data b.data c.data⟩
  exact List.Pairwise.sublist ((List.take_sublist _ _).trans (List.drop_sublist _ _))
    (List.sorted_insertionSort lexLeP (entries.filter hasImageExt))

theorem length_image_files_le (entries : List String) (s e : Nat) :
    (image_files entries s e).length ≤ e - s :=
  List.length_take_le _ _

theorem nodup_image_files {entries : List String} (h : entries.Nodup) (s e : Nat) :
    (image_files entries s e).Nodup := by
  have h1 : (entries.filter hasImageExt).Nodup := h.filter _
  have h2 : (List.insertionSort lexLeP (entries.filter hasImageExt)).Nodup :=
    (List.perm_insertionSort lexLeP _).symm.nodup h1
  exact List.Nodup.sublist
    ((List.take_sublist _ _).trans (List.drop_sublist _ _)) h2

theorem map_image_extract (dir : String) (entries : List String)
    (recog : String → Nat → List String) (s e : Nat) :
    (extract_text_from_images dir entries recog s e).map ExtractionResult.image
      = image_files entries s e := by
  simp only [extract_text_from_images]
  rw [List.map_map,
    show (ExtractionResult.image ∘ fun f =>
      ({ image := f,
         text_extracted := clean_text (extractBest (recog (pathJoin dir f))) } :
        ExtractionResult)) = id from rfl,
    List.map_id]

theorem ne_pathJoin (d f : String) : f ≠ pathJoin d f := by
  intro h
  have hl := congrArg String.length h
  rw [pathJoin, String.length_append, String.length_append] at hl
  have h1 : ("/" : String).length = 1 := rfl
  rw [h1] at hl
  omega

theorem extractBest_all_nil (ts : Nat → List String)
    (h : ∀ a ∈ ANGLES, ts a = []) : extractBest ts = "" := by
  simp only [extractBest, ANGLES, List.foldl]
  rw [h 0 (by decide), h 90 (by decide), h 180 (by decide), h 270 (by decide)]
  rfl

theorem batchLoopE_error (dir : String)
    (proc : String → Except Unit (Nat → Except Unit (List String))) :
    ∀ (l : List String) (acc : List ExtractionResult),
      (∃ f ∈ l, proc (pathJoin dir f) = Except.error ()) →
      batchLoopE dir proc l acc = Except.error ()
  | [], _, h => by
    obtain ⟨f, hf, _⟩ := h
    exact absurd hf (List.not_mem_nil f)
  | f0 :: rest, acc, h => by
    cases hp : proc (pathJoin dir f0) with
    | error u =>
      cases u
      simp [batchLoopE, hp]
    | ok recog =>
      cases hb : extractTextE recog with
      | error u =>
        cases u
        simp [batchLoopE, hp, hb]
      | ok best =>
        have h' : ∃ f ∈ rest, proc (pathJoin dir f) = Except.error () := by
          obtain ⟨f, hf, hpf⟩ := h
          rcases List.mem_cons.mp hf with rfl | hf2
          · rw [hp] at hpf
            exact absurd hpf (by simp)
          · exact ⟨f, hf2, hpf⟩
        simp only [batchLoopE, hp, hb]
        exact batchLoopE_error dir proc rest _ h'

theorem decodeEntries_map (corpus : List ExtractionResult) :
    decodeEntries (corpus.map encodeResult) = some corpus := by
  induction corpus with
  | nil => rfl
  | cons r rs ih =>
    simp only [List.map_cons, decodeEntries]
    rw [show decodeEntry (encodeResult r) = some r from rfl, ih]

/-! ## Claim theorems -/

/-- C1: `extractBest` scans the angles in the fixed order 0, 90, 180, 270,
joins each angle's recognized blocks with single spaces, and replaces the
best candidate only on strictly greater character length; hence on the
length profile [5, 8, 8, 3] the candidate produced at 90 degrees is
selected (a tie in length keeps the first, lowest-angle candidate). -/
theorem extractBest_tie_keeps_first (recog : Nat → List String)
    (h0 : (joinBlocks (recog 0)).length = 5)
    (h90 : (joinBlocks (recog 90)).length = 8)
    (h180 : (joinBlocks (recog 180)).length = 8)
    (h270 : (joinBlocks (recog 270)).length = 3) :
    extractBest recog = joinBlocks (recog 90) := by
  have s0 : voteStep "" (joinBlocks (recog 0)) = joinBlocks (recog 0) := by
    unfold voteStep
    rw [if_pos (by rw [h0]; decide)]
  have s1 : voteStep (joinBlocks (recog 0)) (joinBlocks (recog 90))
      = joinBlocks (recog 90) := by
    unfold voteStep
    rw [if_pos (by rw [h0, h90]; decide)]
  have s2 : voteStep (joinBlocks (recog 90)) (joinBlocks (recog 180))
      = joinBlocks (recog 90) := by
    unfold voteStep
    rw [if_neg (by rw [h90, h180]; decide)]
  have s3 : voteStep (joinBlocks (recog 90)) (joinBlocks (recog 270))
      = joinBlocks (recog 90) := by
    unfold voteStep
    rw [if_neg (by rw [h90, h270]; decide)]
  simp only [extractBest, ANGLES, List.foldl]
  rw [s0, s1, s2, s3]

/-- C1 witness: a concrete recognizer with candidate lengths 5, 8, 8, 3
selects the angle-90 candidate. -/
theorem extractBest_tie_keeps_first_witness :
    extractBest (fun a => if a = 0 then ["abcde"] else if a = 90 then ["stuvwxyz"]
      else if a = 180 then ["hgfedcba"] else ["abc"])
      = joinBlocks ((fun a : Nat => if a = 0 then ["abcde"] else if a = 90 then ["stuvwxyz"]
      else if a = 180 then ["hgfedcba"] else ["abc"]) 90) :=
  extractBest_tie_keeps_first _ (by decide) (by decide) (by decide) (by decide)

/-- C2: the batch run selects only directory entries carrying one of the
image extensions (case-sensitively), processes them in lexicographically
sorted order restricted to the half-open slice `[s, e)`; concretely, for
the directory `["b.jpg", "a.jpg", "c.jpg"]` and range `[0, 2)` the corpus
holds a result for `a.jpg`, then one for `b.jpg`, and none for `c.jpg`. -/
theorem batch_selects_sorted_slice (dir : String) (entries : List String)
    (recog : String → Nat → List String) (s e : Nat) :
    (∀ f ∈ image_files entries s e, hasImageExt f = true ∧ f ∈ entries) ∧
    List.Pairwise lexLeP (image_files entries s e) ∧
    (extract_text_from_images dir entries recog s e).map ExtractionResult.image
      = image_files entries s e ∧
    (image_files entries s e).length ≤ e - s ∧
    (extract_text_from_images "d" ["b.jpg", "a.jpg", "c.jpg"] (fun _ _ => []) 0 2).map
      ExtractionResult.image = ["a.jpg", "b.jpg"] ∧
    hasImageExt "x.jpg" = true ∧ hasImageExt "x.JPG" = false :=
  ⟨fun _ hf => mem_image_files hf, pairwise_image_files entries s e,
    map_image_extract dir entries recog s e, length_image_files_le entries s e,
    by decide, by decide, by decide⟩

/-- C2 witness: the theorem applied to the concrete directory
`["b.jpg", "a.jpg", "c.jpg"]` with slice `[0, 2)` and the member
`a.jpg`. -/
theorem batch_selects_sorted_slice_witness :
    hasImageExt "a.jpg" = true ∧ "a.jpg" ∈ ["b.jpg", "a.jpg", "c.jpg"] :=
  (batch_selects_sorted_slice "d" ["b.jpg", "a.jpg", "c.jpg"] (fun _ _ => []) 0 2).1
    "a.jpg" (by decide)

/-- C3 counterexample: with a recognizer that raises at angle 0 and reads
"hello" at angles 90, 180 and 270, the voting loop propagates the error to
its caller instead of treating the failed angle as an empty candidate and
returning the best remaining candidate "hello". -/
theorem extractTextE_propagates_failure :
    extractTextE (fun a => if a = 0 then Except.error () else Except.ok ["hello"])
      = Except.error () ∧
    extractTextE (fun a => if a = 0 then Except.error () else Except.ok ["hello"])
      ≠ Except.ok "hello" := by
  refine ⟨rfl, ?_⟩
  rw [show extractTextE (fun a => if a = 0 then Except.error () else Except.ok ["hello"])
      = Except.error () from rfl]
  intro hc
  exact Except.noConfusion hc

/-- C3 amended: when the recognizer returns normally at every angle —
possibly with zero text blocks — the loop succeeds with the voted
candidate, and when every angle yields zero blocks the voted candidate is
the empty text; a raised recognizer error, however, is propagated to the
caller (see the counterexample), not recovered as an empty candidate. -/
theorem extractTextE_ok_of_no_failure (recogE : Nat → Except Unit (List String))
    (ts : Nat → List String) (h : ∀ a ∈ ANGLES, recogE a = Except.ok (ts a)) :
    extractTextE recogE = Except.ok (extractBest ts) ∧
    ((∀ a ∈ ANGLES, ts a = []) → extractBest ts = "") := by
  constructor
  · have h0 := h 0 (by decide)
    have h90 := h 90 (by decide)
    have h180 := h 180 (by decide)
    have h270 := h 270 (by decide)
    simp [extractTextE, extractBest, ANGLES, List.foldlM, h0, h90, h180, h270]
    rfl
  · exact extractBest_all_nil ts

/-- C3 amended witness: a recognizer succeeding with "hi" at every angle
yields the voted candidate. -/
theorem extractTextE_ok_of_no_failure_witness :
    extractTextE (fun _ => Except.ok ["hi"]) = Except.ok (extractBest fun _ => ["hi"]) :=
  (extractTextE_ok_of_no_failure (fun _ => Except.ok ["hi"]) (fun _ => ["hi"])
    (fun _ _ => rfl)).1

/-- C4: the skew correction maps a raw angle `a` to `-(90 + a)` when
`a < -45` and to `-a` otherwise; -46 corrects to -44, -44 corrects to 44,
and the boundary value -45 falls in the otherwise branch, correcting
to 45. -/
theorem correct_skew_angle_spec (a : ℚ) :
    (a < -45 → correct_skew_angle a = -(90 + a)) ∧
    (-45 ≤ a → correct_skew_angle a = -a) ∧
    correct_skew_angle (-46) = -44 ∧
    correct_skew_angle (-44) = 44 ∧
    correct_skew_angle (-45) = 45 := by
  refine ⟨fun h => ?_, fun h => ?_, ?_, ?_, ?_⟩
  · unfold correct_skew_angle
    rw [if_pos h]
  · unfold correct_skew_angle
    rw [if_neg (not_lt.mpr h)]
  · norm_num [correct_skew_angle]
  · norm_num [correct_skew_angle]
  · norm_num [correct_skew_angle]

/-- C4 witness: both branches applied at concrete raw angles on each side
of the boundary. -/
theorem correct_skew_angle_spec_witness :
    ((-46 : ℚ) < -45 ∧ correct_skew_angle (-46) = -(90 + -46)) ∧
    ((-45 : ℚ) ≤ -44 ∧ correct_skew_angle (-44) = -(-44)) :=
  ⟨⟨by norm_num, (correct_skew_angle_spec (-46)).1 (by norm_num)⟩,
   ⟨by norm_num, (correct_skew_angle_spec (-44)).2.1 (by norm_num)⟩⟩

/-- C5: the sanitizer is idempotent: cleaning an already cleaned string
changes nothing. -/
theorem clean_text_idempotent (s : String) :
    clean_text (clean_text s) = clean_text s := by
  show String.mk (cleanList (cleanList s.data)) = String.mk (cleanList s.data)
  rw [cleanList_fixpoint]

/-- C6: every character surviving sanitization lies in the allowed set:
ASCII letters, ASCII digits, the punctuation `.`/`,`/`:`/`/`, the newline
character, and the ASCII space. -/
theorem clean_text_char_closure (s : String) :
    ∀ c ∈ (clean_text s).data, specAllowedChar c = true := by
  intro c hc
  have hc' : c ∈ cleanList s.data := hc
  rcases mem_cleanList hc' with rfl | ⟨hk, hw⟩
  · decide
  · exact kept_not_space_spec hk hw

/-- C6 witness: the closure theorem applied to the concrete input "a b"
and its member character. -/
theorem clean_text_char_closure_witness :
    specAllowedChar 'a' = true :=
  clean_text_char_closure "a b" 'a' (by decide)

/-- C7 counterexample: in the directory `["a.jpg", "b.jpg", "c.jpg"]` where
only `dir/b.jpg` fails to decode, the batch run returns the propagated
error rather than skipping the bad item: the corpus holding results for
`a.jpg` and `c.jpg` that the claim predicts is not produced. -/
theorem batch_aborts_on_decode_failure :
    extract_text_from_imagesE "dir" ["a.jpg", "b.jpg", "c.jpg"]
      (fun p => if p = "dir/b.jpg" then Except.error ()
        else Except.ok fun _ => Except.ok ["ok"]) 0 3
      = Except.error () ∧
    extract_text_from_imagesE "dir" ["a.jpg", "b.jpg", "c.jpg"]
      (fun p => if p = "dir/b.jpg" then Except.error ()
        else Except.ok fun _ => Except.ok ["ok"]) 0 3
      ≠ Except.ok [{ image := "a.jpg", text_extracted := "ok" },
          { image := "c.jpg", text_extracted := "ok" }] := by
  have h : extract_text_from_imagesE "dir" ["a.jpg", "b.jpg", "c.jpg"]
      (fun p => if p = "dir/b.jpg" then Except.error ()
        else Except.ok fun _ => Except.ok ["ok"]) 0 3 = Except.error () := rfl
  refine ⟨h, ?_⟩
  rw [h]
  intro hc
  exact Except.noConfusion hc

/-- C7 amended: a decode failure is not confined to the failing item: if
any selected file fails to decode, the whole batch run aborts with the
propagated error and no corpus is produced for the remaining files. -/
theorem batch_error_of_decode_failure (dir : String) (entries : List String)
    (proc : String → Except Unit (Nat → Except Unit (List String))) (s e : Nat)
    (h : ∃ f ∈ image_files entries s e, proc (pathJoin dir f) = Except.error ()) :
    extract_text_from_imagesE dir entries proc s e = Except.error () :=
  batchLoopE_error dir proc (image_files entries s e) [] h

/-- C7 amended witness: one selected file that fails to decode aborts the
run. -/
theorem batch_error_of_decode_failure_witness :
    extract_text_from_imagesE "d" ["a.jpg"] (fun _ => Except.error ()) 0 1
      = Except.error () :=
  batch_error_of_decode_failure "d" ["a.jpg"] (fun _ => Except.error ()) 0 1
    ⟨"a.jpg", by decide, rfl⟩

/-- C8: the persisted document is a JSON object with the single key
"input" holding one entry per processed image, in processing order, each
entry an object carrying the source file name under "image" (never the
joined full path, which is always distinct from the bare name) and the
sanitized text under "text_extracted"; distinct directory entries give
pairwise-distinct result images. -/
theorem saveJson_shape (dir : String) (entries : List String)
    (recog : String → Nat → List String) (s e : Nat) :
    saveJson (extract_text_from_images dir entries recog s e)
      = Json.obj [("input", Json.arr ((image_files entries s e).map fun f =>
          Json.obj [("image", Json.str f),
            ("text_extracted",
              Json.str (clean_text (extractBest (recog (pathJoin dir f)))))]))] ∧
    (extract_text_from_images dir entries recog s e).length
      = (image_files entries s e).length ∧
    (entries.Nodup →
      ((extract_text_from_images dir entries recog s e).map
        ExtractionResult.image).Nodup) ∧
    (∀ f, f ≠ pathJoin dir f) := by
  refine ⟨?_, ?_, ?_, fun f => ne_pathJoin dir f⟩
  · simp only [saveJson, extract_text_from_images]
    rw [List.map_map]
    rfl
  · simp [extract_text_from_images]
  · intro hnd
    rw [map_image_extract]
    exact nodup_image_files hnd s e

/-- C8 witness: the no-duplicates conclusion at a concrete one-file
directory. -/
theorem saveJson_shape_witness :
    ((extract_text_from_images "d" ["a.jpg"] (fun _ _ => []) 0 1).map
      ExtractionResult.image).Nodup :=
  (saveJson_shape "d" ["a.jpg"] (fun _ _ => []) 0 1).2.2.1 (by decide)

/-- C9: loading the saved document reconstructs the corpus: `load` after
`saveJson` is the identity on corpora, preserving order and content (the
loader is modelled from the spec, the source only writes the file). -/
theorem load_save_roundtrip (corpus : List ExtractionResult) :
    load (saveJson corpus) = some corpus :=
  decodeEntries_map corpus

/-- C10: the voted text is the empty string or exactly one of the four
space-joined recognizer outputs, its length is the maximum of the four
candidate lengths, and when all four attempts return no text the image
still contributes one result entry whose extracted text is the empty
string rather than being omitted. -/
theorem extractBest_shape (recog : Nat → List String) :
    (extractBest recog = "" ∨ ∃ a ∈ ANGLES, extractBest recog = joinBlocks (recog a)) ∧
    (extractBest recog).length
      = ((ANGLES.map fun a => (joinBlocks (recog a)).length).foldr max 0) ∧
    ((∀ a ∈ ANGLES, recog a = []) →
      extractBest recog = "" ∧ clean_text (extractBest recog) = "") ∧
    extract_text_from_images "d" ["x.png"] (fun _ _ => []) 0 1
      = [{ image := "x.png", text_extracted := "" }] := by
  refine ⟨?_, ?_, ?_, by decide⟩
  · rcases vote_foldl_mem (ANGLES.map fun a => joinBlocks (recog a)) "" with h | h
    · left
      rw [extractBest_eq_foldl]
      exact h
    · right
      rw [extractBest_eq_foldl]
      obtain ⟨a, ha, hEq⟩ := List.mem_map.mp h
      exact ⟨a, ha, hEq.symm⟩
  · rw [extractBest_eq_foldl, vote_foldl_length, List.map_map]
    have h1 : ("" : String).length = 0 := rfl
    rw [h1, Nat.max_zero]
    rfl
  · intro h
    have e1 : extractBest recog = "" := extractBest_all_nil recog h
    exact ⟨e1, by rw [e1]; rfl⟩

/-- C10 witness: when all four attempts return no text the voted candidate
and its sanitized form are both the empty string. -/
theorem extractBest_shape_witness :
    extractBest (fun _ => []) = "" ∧ clean_text (extractBest (fun _ => [])) = "" :=
  (extractBest_shape fun _ => []).2.2.1 fun _ _ => rfl
